import Mathlib

/-!
Verification of the FAQ retrieval repository: chunker, embedder call sites,
ingestion pipeline, batched upsert, and retrieval transports, shallowly
embedded in Lean.  External collaborators (the tokenizer encoding, the
embedding service, the vector index, the PDF reader, the file system) are
modelled as explicit function parameters (oracles); network interactions are
recorded as explicit call traces so that statements about which calls a code
path issues are propositions about the embedding.
-/

namespace FaqSearch

/-- Ceiling division on naturals: the least `n` with `a ≤ n * b` (for `b > 0`). -/
def ceilDiv (a b : Nat) : Nat := (a + b - 1) / b

/-- The `while start < len(tokens)` loop of `chunk_text_by_tokens`
(`vector_db.py`), at token level.  Each iteration takes the window
`tokens[start : start + maxTokens]` and advances `start` by
`maxTokens - overlap`.  The Python loop has no termination guard, so the
embedding carries explicit fuel: `none` models a loop that did not finish
within the given number of iterations (with adequate fuel, `none` means the
loop never finishes). -/
def chunkIter (tokens : List Nat) (maxTokens overlap : Nat) : Nat → Nat → Option (List (List Nat))
  | start, 0 => if start < tokens.length then none else some []
  | start, fuel + 1 =>
    if start < tokens.length then
      match chunkIter tokens maxTokens overlap (start + (maxTokens - overlap)) fuel with
      | none => none
      | some rest => some (((tokens.drop start).take maxTokens) :: rest)
    else some []

/-- Token-level result of `chunk_text_by_tokens`: the windows produced by the
loop, starting at offset 0.  Fuel `tokens.length` suffices whenever the
advance step is positive, since the loop then runs at most
`ceil(length / step) ≤ length` iterations. -/
def chunkTokens (tokens : List Nat) (maxTokens overlap : Nat) : Option (List (List Nat)) :=
  chunkIter tokens maxTokens overlap 0 tokens.length

/-- `chunk_text_by_tokens` from `vector_db.py`.  `encode`/`decode` are the
tiktoken `cl100k_base` encoding, passed as oracles; each token window is
decoded back to text. -/
def chunk_text_by_tokens (encode : String → List Nat) (decode : List Nat → String)
    (text : String) (max_tokens overlap : Nat) : Option (List String) :=
  (chunkTokens (encode text) max_tokens overlap).map (List.map decode)

theorem ceilDiv_zero_left (b : Nat) : ceilDiv 0 b = 0 := by
  match b with
  | 0 => rfl
  | b + 1 =>
    simp only [ceilDiv, Nat.zero_add]
    exact Nat.div_eq_of_lt (by omega)

theorem ceilDiv_sub_step {a s : Nat} (hs : 0 < s) (ha : 0 < a) :
    ceilDiv a s = ceilDiv (a - s) s + 1 := by
  by_cases h : a ≤ s
  · have h0 : a - s = 0 := by omega
    rw [h0, ceilDiv_zero_left]
    show (a + s - 1) / s = 1
    exact Nat.div_eq_of_lt_le (by omega) (by omega)
  · have h1 : a + s - 1 = (a - s + s - 1) + s := by omega
    show (a + s - 1) / s = (a - s + s - 1) / s + 1
    rw [h1, Nat.add_div_right _ hs]

/-- With a positive advance step and enough fuel, the loop terminates and
produces exactly the windows `tokens[k*step : k*step + maxTokens]` for
`k < ceil((length - start) / step)`. -/
theorem chunkIter_spec (tokens : List Nat) (W O : Nat) (h : 0 < W - O) :
    ∀ (fuel start : Nat), tokens.length ≤ start + fuel * (W - O) →
      chunkIter tokens W O start fuel =
        some ((List.range (ceilDiv (tokens.length - start) (W - O))).map
          (fun k => (tokens.drop (start + k * (W - O))).take W)) := by
  intro fuel
  induction fuel with
  | zero =>
    intro start hs
    have hle : ¬ start < tokens.length := by omega
    have h0 : tokens.length - start = 0 := by omega
    simp [chunkIter, hle, h0, ceilDiv_zero_left]
  | succ n ih =>
    intro start hs
    by_cases hlt : start < tokens.length
    · have hrec : tokens.length ≤ (start + (W - O)) + n * (W - O) := by
        have : start + (n + 1) * (W - O) = (start + (W - O)) + n * (W - O) := by ring
        omega
      have hpos : 0 < tokens.length - start := by omega
      rw [ceilDiv_sub_step h hpos]
      have harg : tokens.length - start - (W - O) = tokens.length - (start + (W - O)) := by
        omega
      simp only [chunkIter, if_pos hlt, ih (start + (W - O)) hrec, harg]
      rw [List.range_succ_eq_map, List.map_cons, List.map_map]
      congr 2
      · congr 2
        omega
      · apply List.map_congr_left
        intro k _
        simp only [Function.comp_apply]
        congr 2
        simp only [Nat.succ_eq_add_one]
        ring
    · have h0 : tokens.length - start = 0 := by omega
      simp [chunkIter, hlt, h0, ceilDiv_zero_left]

/-- `chunkTokens` in closed form, for a positive advance step. -/
theorem chunkTokens_spec (tokens : List Nat) (W O : Nat) (h : O < W) :
    chunkTokens tokens W O =
      some ((List.range (ceilDiv tokens.length (W - O))).map
        (fun k => (tokens.drop (k * (W - O))).take W)) := by
  have hs : 0 < W - O := by omega
  have hfuel : tokens.length ≤ 0 + tokens.length * (W - O) := by
    have := Nat.le_mul_of_pos_right tokens.length hs
    omega
  have := chunkIter_spec tokens W O hs tokens.length 0 hfuel
  simp only [chunkTokens, this, Nat.sub_zero]
  congr 1
  apply List.map_congr_left
  intro k _
  congr 2
  omega

/-- Two consecutive chunks share exactly `n` tokens: the last `n` tokens of
the first chunk exist and equal the first `n` tokens of the second. -/
def sharedTokens (c d : List Nat) (n : Nat) : Prop :=
  c.drop (c.length - n) = d.take n ∧ (d.take n).length = n

instance (c d : List Nat) (n : Nat) : Decidable (sharedTokens c d n) :=
  inferInstanceAs (Decidable (_ ∧ _))

/-- C1: the chunk-count formula of the spec is refuted by the code.  For a
text of 11 tokens with window 10 and overlap 5 the loop runs at starts
0, 5, 10 and returns 3 chunks, while the spec formula
`ceil((T - O) / (W - O))` gives 2 (here `T = 11 > O = 5`). -/
theorem chunk_count_formula_counterexample :
    (chunk_text_by_tokens (fun _ => List.range 11) (fun _ => "y") "x" 10 5).map List.length
      = some 3
    ∧ ceilDiv (11 - 5) (10 - 5) = 2 := by
  constructor <;> rfl

/-- C1 (amended): for every text, window `W` and overlap `O < W`,
`chunk_text_by_tokens` returns exactly `ceil(T / (W - O))` chunks, where `T`
is the number of tokens the encoding assigns to the text (this is 0 when
`T = 0`, but exceeds the spec formula `ceil((T - O)/(W - O))` whenever the
final window starts inside the previous window's tail). -/
theorem chunk_count_formula (encode : String → List Nat) (decode : List Nat → String)
    (text : String) (W O : Nat) (h : O < W) :
    (chunk_text_by_tokens encode decode text W O).map List.length
      = some (ceilDiv (encode text).length (W - O)) := by
  rw [chunk_text_by_tokens, chunkTokens_spec _ _ _ h]
  simp

theorem chunk_count_formula_witness :
    5 < 10 ∧
    (chunk_text_by_tokens (fun _ => List.range 11) (fun _ => "y") "x" 10 5).map List.length
      = some (ceilDiv (List.range 11).length (10 - 5)) :=
  ⟨by omega, chunk_count_formula (fun _ => List.range 11) (fun _ => "y") "x" 10 5 (by omega)⟩

/-- C3: the source has no guard for `overlap ≥ max_tokens`.  On any nonempty
token stream the advance step is then 0 and the `while` loop never finishes:
in the fuelled embedding the loop fails to complete for every fuel bound (no
configuration error is raised — the call simply never returns).  When
`overlap < max_tokens` the loop does terminate. -/
theorem chunker_no_overlap_guard :
    (∀ fuel : Nat, chunkIter (List.range 3) 6000 6000 0 fuel = none)
    ∧ chunk_text_by_tokens (fun _ => List.range 3) (fun _ => "z") "abc" 6000 6000 = none
    ∧ (∀ (tokens : List Nat) (W O : Nat), O < W → (chunkTokens tokens W O).isSome) := by
  have hloop : ∀ fuel : Nat, chunkIter (List.range 3) 6000 6000 0 fuel = none := by
    intro fuel
    induction fuel with
    | zero => rfl
    | succ n ih => simp [chunkIter, ih]
  refine ⟨hloop, ?_, ?_⟩
  · show (chunkIter (List.range 3) 6000 6000 0 3).map (List.map _) = none
    rw [hloop 3]
    rfl
  · intro tokens W O h
    rw [chunkTokens_spec tokens W O h]
    rfl

/-- C4: the exact-overlap clause is refuted by the code.  With 20 tokens,
window 10 and overlap 7 the loop produces 7 chunks (starts 0,3,...,18); the
pair of chunks 4 and 5 does not end at the last chunk, yet the two chunks
share only 5 tokens, not 7, because chunk 5's window is truncated by the end
of the token stream. -/
theorem chunk_overlap_counterexample :
    ((chunkTokens (List.range 20) 10 7).getD []).length = 7
    ∧ ¬ sharedTokens (((chunkTokens (List.range 20) 10 7).getD []).getD 4 [])
        (((chunkTokens (List.range 20) 10 7).getD []).getD 5 []) 7 := by
  decide

/-- C4 (amended): for `O < W` the windows returned by the chunker are the
slices `tokens[k*(W-O) : k*(W-O)+W]`, they cover every token index at least
once, and every pair of consecutive chunks whose later window is not
truncated by the end of the token stream shares exactly `O` tokens (the
exemption the counterexample forces: truncated windows — not only the final
pair — may share fewer). -/
theorem chunk_coverage_and_overlap (tokens : List Nat) (W O : Nat) (h : O < W)
    (l : List (List Nat)) (hl : chunkTokens tokens W O = some l) :
    (∀ k, k < l.length → l.getD k [] = (tokens.drop (k * (W - O))).take W)
    ∧ (∀ i, i < tokens.length →
        ∃ k, k < l.length ∧ k * (W - O) ≤ i ∧ i < k * (W - O) + W)
    ∧ (∀ k, k + 1 < l.length → (k + 1) * (W - O) + W ≤ tokens.length →
        sharedTokens (l.getD k []) (l.getD (k + 1) []) O) := by
  have hs : 0 < W - O := by omega
  rw [chunkTokens_spec tokens W O h] at hl
  have hlform := Option.some.inj hl
  subst hlform
  have hlen : ((List.range (ceilDiv tokens.length (W - O))).map
      (fun k => (tokens.drop (k * (W - O))).take W)).length
      = ceilDiv tokens.length (W - O) := by simp
  have hget : ∀ k, k < ceilDiv tokens.length (W - O) →
      ((List.range (ceilDiv tokens.length (W - O))).map
        (fun k => (tokens.drop (k * (W - O))).take W)).getD k []
      = (tokens.drop (k * (W - O))).take W := by
    intro k hk
    simp [List.getD, List.getElem?_map, List.getElem?_range, hk]
  refine ⟨fun k hk => hget k (by omega), ?_, ?_⟩
  · intro i hi
    refine ⟨i / (W - O), ?_, ?_, ?_⟩
    · have h1 : (i + (W - O)) / (W - O) ≤ (tokens.length + (W - O) - 1) / (W - O) :=
        Nat.div_le_div_right (by omega)
      rw [Nat.add_div_right i hs] at h1
      have h2 : ceilDiv tokens.length (W - O) = (tokens.length + (W - O) - 1) / (W - O) := rfl
      omega
    · exact Nat.div_mul_le_self i (W - O)
    · have hdm := Nat.div_add_mod i (W - O)
      have hmod := Nat.mod_lt i hs
      have hc : i / (W - O) * (W - O) = (W - O) * (i / (W - O)) := Nat.mul_comm ..
      omega
  · intro k hk hfull
    rw [hget k (by omega), hget (k + 1) (by omega)]
    have hmono : k * (W - O) ≤ (k + 1) * (W - O) := Nat.mul_le_mul_right _ (by omega)
    have hAlen : ((tokens.drop (k * (W - O))).take W).length = W := by
      simp only [List.length_take, List.length_drop]
      omega
    constructor
    · rw [hAlen, List.drop_take, List.drop_drop]
      have e1 : W - (W - O) = O := by omega
      have e3 : k * (W - O) + (W - O) = (k + 1) * (W - O) := by ring
      rw [e1, e3, List.take_take]
      have e2 : min O W = O := by omega
      rw [e2]
    · simp only [List.length_take, List.length_drop]
      omega

theorem chunk_coverage_and_overlap_witness :
    3 < 10
    ∧ chunkTokens (List.range 12) 10 3
        = some [[0, 1, 2, 3, 4, 5, 6, 7, 8, 9], [7, 8, 9, 10, 11]]
    ∧ ((∀ k, k < ([[0, 1, 2, 3, 4, 5, 6, 7, 8, 9], [7, 8, 9, 10, 11]] : List (List Nat)).length →
          ([[0, 1, 2, 3, 4, 5, 6, 7, 8, 9], [7, 8, 9, 10, 11]] : List (List Nat)).getD k []
            = ((List.range 12).drop (k * (10 - 3))).take 10)
        ∧ (∀ i, i < (List.range 12).length →
            ∃ k, k < ([[0, 1, 2, 3, 4, 5, 6, 7, 8, 9], [7, 8, 9, 10, 11]] : List (List Nat)).length
              ∧ k * (10 - 3) ≤ i ∧ i < k * (10 - 3) + 10)
        ∧ (∀ k, k + 1 < ([[0, 1, 2, 3, 4, 5, 6, 7, 8, 9], [7, 8, 9, 10, 11]] : List (List Nat)).length →
            (k + 1) * (10 - 3) + 10 ≤ (List.range 12).length →
            sharedTokens (([[0, 1, 2, 3, 4, 5, 6, 7, 8, 9], [7, 8, 9, 10, 11]] : List (List Nat)).getD k [])
              (([[0, 1, 2, 3, 4, 5, 6, 7, 8, 9], [7, 8, 9, 10, 11]] : List (List Nat)).getD (k + 1) []) 3)) :=
  ⟨by omega, by decide,
    chunk_coverage_and_overlap (List.range 12) 10 3 (by omega)
      [[0, 1, 2, 3, 4, 5, 6, 7, 8, 9], [7, 8, 9, 10, 11]] (by decide)⟩

/-!
Service-layer data model.  Python floating-point values are never computed
with in this repository, only carried through (scores, embedding
coordinates), so they are modelled by an arbitrary carrier type `F`.
-/

/-- A Python value as stored in result/metadata dictionaries: a string, an
int, or a float (carrier `F`). -/
inductive PyVal (F : Type) where
  | s (v : String)
  | i (v : Nat)
  | f (v : F)
deriving DecidableEq

/-- A Python dict with string keys, as a key-value list (dict literals in
this codebase have distinct keys; lookup takes the first match). -/
abbrev Dict (F : Type) := List (String × PyVal F)

/-- Python's `d.get(k, default)`. -/
def dictGet {F : Type} (d : Dict F) (k : String) (default : PyVal F) : PyVal F :=
  match d.lookup k with
  | some v => v
  | none => default

/-- Read a dict value as a string.  The two keys read this way
(`source`, `content_preview`) are always stored as strings by the ingestion
pipeline; a non-string value (which would make the Python slicing raise) is
outside the oracle contract and mapped to `""`. -/
def pyStr {F : Type} : PyVal F → String
  | .s v => v
  | _ => ""

/-- One match returned by the Pinecone index: a similarity score and the
stored metadata. -/
structure PMatch (F : Type) where
  score : F
  metadata : Dict F
deriving DecidableEq

/-- The result object of `index.query`. -/
structure QueryResults (F : Type) where
  matches' : List (PMatch F)
deriving DecidableEq

/-- A network call issued to one of the two external services. -/
inductive NetCall (F : Type) where
  | embed (texts : List String) (model : String) (input_type : String)
  | query (vector : List F) (top_k : Int) (include_metadata : Bool)
deriving DecidableEq

/-- The Cohere `co.embed` endpoint: texts, model id, input type ↦ one
embedding per text (or a service failure). -/
abbrev CoEmbed (F : Type) := List String → String → String → Except String (List (List F))

/-- The Pinecone `index.query` endpoint: vector, top_k, include_metadata. -/
abbrev IndexQuery (F : Type) := List F → Int → Bool → Except String (QueryResults F)

/-- A vector record as built by `process_pdfs_to_vectors` and consumed by
`upsert_to_pinecone`. -/
structure RecordT (F : Type) where
  id : String
  values : List F
  metadata : Dict F
deriving DecidableEq

/-- `embed_text` from `vector_db.py`: one `co.embed` call with
`input_type="search_document"`; returns `response.embeddings[0]`.  The
`except` clause prints and re-raises, so service failures (and an empty
embeddings list) propagate as errors.  The first component is the trace of
network calls issued. -/
def embed_text {F : Type} (co : CoEmbed F) (text : String) :
    List (NetCall F) × Except String (List F) :=
  ([NetCall.embed [text] "embed-english-v3.0" "search_document"],
   match co [text] "embed-english-v3.0" "search_document" with
   | .error e => .error e
   | .ok [] => .error "list index out of range"
   | .ok (v :: _) => .ok v)

/-- `embed_query` from `vector_db.py`: identical to `embed_text` except
`input_type="search_query"`. -/
def embed_query {F : Type} (co : CoEmbed F) (text : String) :
    List (NetCall F) × Except String (List F) :=
  ([NetCall.embed [text] "embed-english-v3.0" "search_query"],
   match co [text] "embed-english-v3.0" "search_query" with
   | .error e => .error e
   | .ok [] => .error "list index out of range"
   | .ok (v :: _) => .ok v)

/-- Python `str.strip()`: remove leading and trailing whitespace (modelled
on the character list, which the kernel can evaluate). -/
def pyStrip (s : String) : String :=
  String.mk ((s.data.dropWhile Char.isWhitespace).reverse.dropWhile Char.isWhitespace).reverse

/-- Python `s[:n]`: the first `n` characters (code points). -/
def pyTake (s : String) (n : Nat) : String :=
  String.mk (s.data.take n)

/-- `os.path.basename` (POSIX): the part after the last `/`. -/
def basename (p : String) : String :=
  String.mk (p.data.reverse.takeWhile (fun c => c ≠ '/')).reverse

/-- The stem part of `os.path.splitext`: everything before the last dot,
where dots leading the name do not count as extension separators. -/
def splitextStem (name : String) : String :=
  let cs := name.data
  let lead := cs.takeWhile (fun c => c = '.')
  let rest := cs.drop lead.length
  let revAfter := rest.reverse.takeWhile (fun c => c ≠ '.')
  if revAfter.length = rest.length then name
  else String.mk (lead ++ (rest.reverse.drop (revAfter.length + 1)).reverse)

/-- `extract_pdf_text` from `vector_db.py`.  `openDoc` models
`fitz.open` + page iteration: it yields the per-page texts or a failure.
Non-empty page texts are concatenated with `"\n"` and the result stripped;
on failure the error is printed (first component: the lines printed) and
`""` returned. -/
def extract_pdf_text (openDoc : String → Except String (List String))
    (file_path : String) : List String × String :=
  match openDoc file_path with
  | .error e => (["Error reading " ++ file_path ++ ": " ++ e], "")
  | .ok pages =>
    ([], pyStrip (pages.foldl (fun acc p => if p ≠ "" then acc ++ p ++ "\n" else acc) ""))

/-- The `for idx, chunk in enumerate(chunks)` loop of
`process_pdfs_to_vectors`: embed each chunk with `embed_text`; on success
append a record with the deterministic id
`splitext(filename)[0] + "-chunk-" + str(idx)` and the metadata written by
the source; on an embedding error print and continue with the next chunk.
`total` is `len(chunks)`, computed before the loop. -/
def processChunks {F : Type} (co : CoEmbed F) (filename : String) (total : Nat) :
    List String → Nat → List (NetCall F) × List (RecordT F)
  | [], _ => ([], [])
  | chunk :: rest, idx =>
    let r := embed_text co chunk
    let next := processChunks co filename total rest (idx + 1)
    match r.2 with
    | .ok emb =>
      (r.1 ++ next.1,
       { id := splitextStem filename ++ "-chunk-" ++ toString idx,
         values := emb,
         metadata := [("source", PyVal.s filename), ("chunk_index", PyVal.i idx),
                      ("total_chunks", PyVal.i total),
                      ("content_preview", PyVal.s (pyTake chunk 300)),
                      ("type", PyVal.s "policy"),
                      ("char_count", PyVal.i chunk.length)] } :: next.2)
    | .error _ => (r.1 ++ next.1, next.2)

/-- The per-file body of `process_pdfs_to_vectors`: extract, skip if the
extracted text is empty, chunk with `overlap = 200` (the source calls
`chunk_text_by_tokens` with its default overlap), then embed every chunk.
Result: `(printed lines, network calls, records)`; `none` models the
non-terminating chunker call when `max_chunk_tokens ≤ 200`. -/
def processFile {F : Type} (openDoc : String → Except String (List String))
    (encode : String → List Nat) (decode : List Nat → String) (co : CoEmbed F)
    (max_chunk_tokens : Nat) (file_path : String) :
    Option (List String × List (NetCall F) × List (RecordT F)) :=
  let filename := basename file_path
  let ex := extract_pdf_text openDoc file_path
  if ex.2 = "" then
    some (("Processing: " ++ filename) :: ex.1
            ++ ["Skipping " ++ filename ++ " - no text extracted"], [], [])
  else
    match chunk_text_by_tokens encode decode ex.2 max_chunk_tokens 200 with
    | none => none
    | some chunks =>
      let pc := processChunks co filename chunks.length chunks 0
      some (("Processing: " ++ filename) :: ex.1
              ++ ["  Created " ++ toString chunks.length ++ " chunks"], pc.1, pc.2)

/-- The `for file_path in pdf_files` loop of `process_pdfs_to_vectors`. -/
def processFiles {F : Type} (openDoc : String → Except String (List String))
    (encode : String → List Nat) (decode : List Nat → String) (co : CoEmbed F)
    (max_chunk_tokens : Nat) :
    List String → Option (List String × List (NetCall F) × List (RecordT F))
  | [] => some ([], [], [])
  | f :: rest =>
    match processFile openDoc encode decode co max_chunk_tokens f,
          processFiles openDoc encode decode co max_chunk_tokens rest with
    | some a, some b => some (a.1 ++ b.1, a.2.1 ++ b.2.1, a.2.2 ++ b.2.2)
    | _, _ => none

/-- `process_pdfs_to_vectors` from `vector_db.py`.  `glob` models
`glob.glob`; if it yields no files the function prints and returns no
records, otherwise every file is processed in order. -/
def process_pdfs_to_vectors {F : Type} (glob : String → List String)
    (openDoc : String → Except String (List String)) (encode : String → List Nat)
    (decode : List Nat → String) (co : CoEmbed F)
    (pdf_pattern : String) (max_chunk_tokens : Nat) :
    Option (List String × List (NetCall F) × List (RecordT F)) :=
  let pdf_files := glob pdf_pattern
  if pdf_files.isEmpty then
    some (["No PDFs found matching pattern: " ++ pdf_pattern], [], [])
  else
    (processFiles openDoc encode decode co max_chunk_tokens pdf_files).map
      (fun r => (("Found " ++ toString pdf_files.length ++ " PDF files") :: r.1,
                 r.2.1, r.2.2))

/-- Outcome of one batch iteration of `upsert_to_pinecone`: the batch number
printed is `i // batch_size + 1`, so the recorded index is `i / batch_size`
(zero-based). -/
inductive BatchResult (F : Type) where
  | ok (batchIndex : Nat) (batch : List (RecordT F))
  | err (batchIndex : Nat) (batch : List (RecordT F)) (msg : String)
deriving DecidableEq

/-- The `for i in range(0, len(vectors), batch_size)` loop of
`upsert_to_pinecone`: each iteration calls `index.upsert` on
`vectors[i:i+batch_size]` and prints a success or an error line with the
batch number; a failed batch does not stop the loop.  The trace records each
attempted batch with its zero-based index and the service outcome.
(`batch_size = 0` would raise `ValueError` in Python's `range`; the loop is
stated for positive batch sizes.) -/
def upsertLoop {F : Type} (upsertSvc : List (RecordT F) → Except String Unit)
    (vectors : List (RecordT F)) (batch_size : Nat) : Nat → Nat → List (BatchResult F)
  | _, 0 => []
  | i, fuel + 1 =>
    if i < vectors.length then
      (match upsertSvc ((vectors.drop i).take batch_size) with
       | .ok _ => BatchResult.ok (i / batch_size) ((vectors.drop i).take batch_size)
       | .error e => BatchResult.err (i / batch_size) ((vectors.drop i).take batch_size) e)
        :: upsertLoop upsertSvc vectors batch_size (i + batch_size) fuel
    else []

/-- `upsert_to_pinecone` from `vector_db.py`.  The first component is the
trace of batch attempts (the per-batch prints); the second component is the
Python return value — the function returns `None`, so the caller receives no
per-batch results and no count.  Fuel `vectors.length` suffices for every
positive batch size. -/
def upsert_to_pinecone {F : Type} (upsertSvc : List (RecordT F) → Except String Unit)
    (vectors : List (RecordT F)) (batch_size : Nat) : List (BatchResult F) × Unit :=
  if vectors.isEmpty then ([], ())
  else (upsertLoop upsertSvc vectors batch_size 0 vectors.length, ())

/-- Consecutive batches of at most `bs` elements (the reference shape for
the upsert trace): `[l[0:bs], l[bs:2bs], ...]`. -/
def listChunks {α : Type} (bs : Nat) : List α → List (List α)
  | [] => []
  | x :: xs =>
    if h : 0 < bs then (x :: xs).take bs :: listChunks bs ((x :: xs).drop bs) else []
termination_by l => l.length
decreasing_by
  simp only [List.length_drop, List.length_cons]
  omega

/-- `search_faq` from `search_helper.py`.  The whole body is one
`try/except Exception` that turns any failure into the single-element list
`[{"error": str(e)}]`, so the function always returns a plain list of
dicts.  Success results are dicts with keys `score`, `source`,
`content_preview` (the preview truncated to 300 characters). -/
def search_helper_search_faq {F : Type} (co : CoEmbed F) (idxq : IndexQuery F)
    (query : String) (top_k : Int) : List (NetCall F) × List (Dict F) :=
  let c1 : NetCall F := .embed [query] "embed-english-v3.0" "search_query"
  match co [query] "embed-english-v3.0" "search_query" with
  | .error e => ([c1], [[("error", PyVal.s e)]])
  | .ok [] => ([c1], [[("error", PyVal.s "list index out of range")]])
  | .ok (qe :: _) =>
    match idxq qe top_k true with
    | .error e => ([c1, .query qe top_k true], [[("error", PyVal.s e)]])
    | .ok results =>
      ([c1, .query qe top_k true],
       results.matches'.map (fun m =>
         [("score", PyVal.f m.score),
          ("source", dictGet m.metadata "source" (PyVal.s "Unknown")),
          ("content_preview",
           PyVal.s (pyTake (pyStr (dictGet m.metadata "content_preview" (PyVal.s ""))) 300))]))

/-- The request body of `api_server.py`'s `/search` route
(`query: str`, `top_k: int = 3`). -/
structure SearchQuery where
  query : String
  top_k : Int
deriving DecidableEq

/-- The response row of `api_server.py`'s `/search` route. -/
structure SearchResult (F : Type) where
  score : F
  source : String
  content : String
deriving DecidableEq

/-- `search_faq` from `api_server.py`: embed the query, search Pinecone with
the caller-supplied `top_k`, format.  There is no validation of any kind:
the handler's first action is the `co.embed` network call, whatever the
query and `top_k` are.  Any exception becomes `HTTPException(500, str(e))`,
modelled as `.error (500, e)`.  `round4` models `round(·, 4)` on the score
floats. -/
def api_server_search_faq {F : Type} (co : CoEmbed F) (idxq : IndexQuery F)
    (round4 : F → F) (search_query : SearchQuery) :
    List (NetCall F) × Except (Nat × String) (List (SearchResult F)) :=
  let c1 : NetCall F := .embed [search_query.query] "embed-english-v3.0" "search_query"
  match co [search_query.query] "embed-english-v3.0" "search_query" with
  | .error e => ([c1], .error (500, e))
  | .ok [] => ([c1], .error (500, "list index out of range"))
  | .ok (qe :: _) =>
    match idxq qe search_query.top_k true with
    | .error e => ([c1, .query qe search_query.top_k true], .error (500, e))
    | .ok results =>
      ([c1, .query qe search_query.top_k true],
       .ok (results.matches'.map (fun m =>
         { score := round4 m.score,
           source := pyStr (dictGet m.metadata "source" (PyVal.s "Unknown")),
           content := pyStr (dictGet m.metadata "content_preview" (PyVal.s "")) })))

/-- The request body of `api_vercel.py`'s `/search` route (`query: str`,
no `top_k` field — the route always queries with `top_k=3`). -/
structure VSearchQuery where
  query : String
deriving DecidableEq

/-- One formatted result of `api_vercel.py`. -/
structure VResult (F : Type) where
  score : F
  source : String
  preview : String
deriving DecidableEq

/-- The success payload of `api_vercel.py`. -/
structure VResponse (F : Type) where
  success : Bool
  results : List (VResult F)
  message : String
deriving DecidableEq

/-- `search_faq` from `api_vercel.py`: the only transport that validates —
an empty query is rejected with `HTTPException(400, ...)` before any network
call.  Otherwise embed, query with the fixed `top_k=3`, format; any
exception becomes `HTTPException(500, "Error: " + str(e))`.  `toFl` models
the `float(match.score)` coercion. -/
def api_vercel_search_faq {F : Type} (co : CoEmbed F) (idxq : IndexQuery F)
    (toFl : F → F) (q : VSearchQuery) :
    List (NetCall F) × Except (Nat × String) (VResponse F) :=
  if q.query = "" then ([], .error (400, "Missing 'query' parameter"))
  else
    let c1 : NetCall F := .embed [q.query] "embed-english-v3.0" "search_query"
    match co [q.query] "embed-english-v3.0" "search_query" with
    | .error e => ([c1], .error (500, "Error: " ++ e))
    | .ok [] => ([c1], .error (500, "Error: list index out of range"))
    | .ok (qe :: _) =>
      match idxq qe 3 true with
      | .error e => ([c1, .query qe 3 true], .error (500, "Error: " ++ e))
      | .ok results =>
        let formatted := results.matches'.map (fun m =>
          { score := toFl m.score,
            source := pyStr (dictGet m.metadata "source" (PyVal.s "Unknown")),
            preview := pyTake (pyStr (dictGet m.metadata "content_preview" (PyVal.s ""))) 300
            : VResult F })
        ([c1, .query qe 3 true],
         .ok { success := true, results := formatted,
               message := if formatted.isEmpty then "No results found."
                          else "Found " ++ toString formatted.length ++ " results." })

/-- The batch a trace entry attempted. -/
def batchOf {F : Type} : BatchResult F → List (RecordT F)
  | .ok _ b => b
  | .err _ b _ => b

/-- The zero-based batch index a trace entry reported. -/
def batchIndexOf {F : Type} : BatchResult F → Nat
  | .ok i _ => i
  | .err i _ _ => i

/-- A trace entry reports exactly the outcome the upsert service returned
for its batch. -/
def outcomeMatches {F : Type} (svc : List (RecordT F) → Except String Unit) :
    BatchResult F → Prop
  | .ok _ b => svc b = .ok ()
  | .err _ b e => svc b = .error e

theorem listChunks_nil {α : Type} (bs : Nat) : listChunks bs ([] : List α) = [] := by
  rw [listChunks]

theorem listChunks_cons {α : Type} (bs : Nat) (hbs : 0 < bs) (x : α) (xs : List α) :
    listChunks bs (x :: xs) = (x :: xs).take bs :: listChunks bs ((x :: xs).drop bs) := by
  rw [listChunks]
  simp [hbs]

theorem listChunks_flatten {α : Type} (bs : Nat) (hbs : 0 < bs) :
    ∀ (n : Nat) (l : List α), l.length ≤ n → (listChunks bs l).flatten = l := by
  intro n
  induction n with
  | zero =>
    intro l hl
    have h0 : l = [] := List.length_eq_zero.mp (by omega)
    subst h0
    rw [listChunks_nil]
    rfl
  | succ n ih =>
    intro l hl
    cases l with
    | nil =>
      rw [listChunks_nil]
      rfl
    | cons x xs =>
      have hlen : xs.length + 1 ≤ n + 1 := by simpa using hl
      rw [listChunks_cons bs hbs, List.flatten_cons,
        ih ((x :: xs).drop bs) (by simp only [List.length_drop, List.length_cons]; omega),
        List.take_append_drop]

theorem listChunks_sizes {α : Type} (bs : Nat) (hbs : 0 < bs) :
    ∀ (n : Nat) (l : List α), l.length ≤ n → ∀ b ∈ listChunks bs l, b.length ≤ bs := by
  intro n
  induction n with
  | zero =>
    intro l hl b hb
    have h0 : l = [] := List.length_eq_zero.mp (by omega)
    subst h0
    rw [listChunks_nil] at hb
    simp at hb
  | succ n ih =>
    intro l hl b hb
    cases l with
    | nil =>
      rw [listChunks_nil] at hb
      simp at hb
    | cons x xs =>
      have hlen : xs.length + 1 ≤ n + 1 := by simpa using hl
      rw [listChunks_cons bs hbs, List.mem_cons] at hb
      rcases hb with hb | hb
      · subst hb
        simp
      · exact ih ((x :: xs).drop bs)
          (by simp only [List.length_drop, List.length_cons]; omega) b hb

/-- The upsert loop visits exactly the consecutive batches
`vectors[i:i+bs], vectors[i+bs:i+2bs], ...`, reports consecutive zero-based
batch indices, and records the service outcome of every batch — in
particular a failed batch never stops the loop. -/
theorem upsertLoop_trace {F : Type} (svc : List (RecordT F) → Except String Unit)
    (vectors : List (RecordT F)) (bs : Nat) (hbs : 0 < bs) :
    ∀ (fuel i : Nat), vectors.length ≤ i + fuel * bs →
      (upsertLoop svc vectors bs i fuel).map batchOf = listChunks bs (vectors.drop i)
      ∧ (upsertLoop svc vectors bs i fuel).map batchIndexOf
          = List.range' (i / bs) (listChunks bs (vectors.drop i)).length
      ∧ ∀ r ∈ upsertLoop svc vectors bs i fuel, outcomeMatches svc r := by
  intro fuel
  induction fuel with
  | zero =>
    intro i hi
    have hdrop : vectors.drop i = [] := List.drop_eq_nil_of_le (by omega)
    refine ⟨?_, ?_, ?_⟩ <;> simp [upsertLoop, hdrop, listChunks]
  | succ n ih =>
    intro i hi
    by_cases hlt : i < vectors.length
    · have hne : vectors.drop i ≠ [] := by
        intro hcon
        have := congrArg List.length hcon
        simp at this
        omega
      have hrec := ih (i + bs) (by
        have : i + (n + 1) * bs = (i + bs) + n * bs := by ring
        omega)
      have hchunks : listChunks bs (vectors.drop i)
          = (vectors.drop i).take bs :: listChunks bs ((vectors.drop i).drop bs) := by
        obtain ⟨x, xs, hd⟩ := List.exists_cons_of_ne_nil hne
        rw [hd]
        exact listChunks_cons bs hbs x xs
      have hdd : (vectors.drop i).drop bs = vectors.drop (i + bs) := by
        rw [List.drop_drop]
      refine ⟨?_, ?_, ?_⟩
      · rw [upsertLoop, if_pos hlt, hchunks, hdd]
        cases hsvc : svc ((vectors.drop i).take bs) <;>
          simp [batchOf, hsvc, hrec.1]
      · rw [upsertLoop, if_pos hlt, hchunks]
        have hlen : (listChunks bs ((vectors.drop i).drop bs)).length
            = (upsertLoop svc vectors bs (i + bs) n).length := by
          rw [hdd, ← hrec.1, List.length_map]
        rw [List.length_cons]
        rw [List.range'_succ, hdd]
        have hdiv : (i + bs) / bs = i / bs + 1 := Nat.add_div_right i hbs
        cases hsvc : svc ((vectors.drop i).take bs) <;>
          simp [batchIndexOf, hsvc, hrec.2.1, hdiv]
      · rw [upsertLoop, if_pos hlt]
        intro r hr
        cases hsvc : svc ((vectors.drop i).take bs) with
        | error e =>
          rw [hsvc] at hr
          rw [List.mem_cons] at hr
          rcases hr with hr | hr
          · subst hr
            exact hsvc
          · exact hrec.2.2 r hr
        | ok u =>
          rw [hsvc] at hr
          rw [List.mem_cons] at hr
          rcases hr with hr | hr
          · subst hr
            show svc ((vectors.drop i).take bs) = Except.ok ()
            rw [hsvc]
          · exact hrec.2.2 r hr
    · have hdrop : vectors.drop i = [] := List.drop_eq_nil_of_le (by omega)
      refine ⟨?_, ?_, ?_⟩ <;> simp [upsertLoop, hlt, hdrop, listChunks]

/-- C5 (amended): `upsert_to_pinecone` writes the records in consecutive
batches of at most `batch_size`, covering all records in order; each batch's
outcome is recorded (printed) with its zero-based batch index, and a failed
batch does not abort the subsequent batches.  But the partial result is NOT
surfaced to the caller: the function's return value is `None` (here `Unit`),
carrying neither a per-batch result list nor a count. -/
theorem upsert_batches_not_surfaced {F : Type}
    (svc : List (RecordT F) → Except String Unit) (vectors : List (RecordT F))
    (bs : Nat) (hbs : 0 < bs) :
    ((upsert_to_pinecone svc vectors bs).1.map batchOf = listChunks bs vectors)
    ∧ ((upsert_to_pinecone svc vectors bs).1.map batchIndexOf
        = List.range' 0 (listChunks bs vectors).length)
    ∧ (∀ r ∈ (upsert_to_pinecone svc vectors bs).1, outcomeMatches svc r)
    ∧ (∀ b ∈ listChunks bs vectors, b.length ≤ bs)
    ∧ (listChunks bs vectors).flatten = vectors
    ∧ (upsert_to_pinecone svc vectors bs).2 = () := by
  by_cases hv : vectors.isEmpty
  · have hnil : vectors = [] := by
      cases vectors
      · rfl
      · simp [List.isEmpty] at hv
    subst hnil
    refine ⟨?_, ?_, ?_, ?_, ?_, rfl⟩ <;>
      simp [upsert_to_pinecone, listChunks_nil]
  · have hmain := upsertLoop_trace svc vectors bs hbs vectors.length 0
      (by
        have := Nat.le_mul_of_pos_right vectors.length hbs
        omega)
    rw [List.drop_zero] at hmain
    have hz : (0 : Nat) / bs = 0 := Nat.zero_div bs
    rw [hz] at hmain
    refine ⟨?_, ?_, ?_, listChunks_sizes bs hbs vectors.length vectors le_rfl,
      listChunks_flatten bs hbs vectors.length vectors le_rfl, rfl⟩
    · rw [upsert_to_pinecone, if_neg hv]
      exact hmain.1
    · rw [upsert_to_pinecone, if_neg hv]
      exact hmain.2.1
    · rw [upsert_to_pinecone, if_neg hv]
      exact hmain.2.2

theorem upsert_batches_not_surfaced_witness :
    0 < 1
    ∧ (((upsert_to_pinecone (fun _ : List (RecordT Int) => Except.ok ())
          [⟨"a-chunk-0", [], []⟩, ⟨"a-chunk-1", [], []⟩] 1).1.map batchOf
            = listChunks 1 [⟨"a-chunk-0", [], []⟩, ⟨"a-chunk-1", [], []⟩])
        ∧ ((upsert_to_pinecone (fun _ : List (RecordT Int) => Except.ok ())
          [⟨"a-chunk-0", [], []⟩, ⟨"a-chunk-1", [], []⟩] 1).1.map batchIndexOf
            = List.range' 0 (listChunks 1
                [(⟨"a-chunk-0", [], []⟩ : RecordT Int), ⟨"a-chunk-1", [], []⟩]).length)
        ∧ (∀ r ∈ (upsert_to_pinecone (fun _ : List (RecordT Int) => Except.ok ())
            [⟨"a-chunk-0", [], []⟩, ⟨"a-chunk-1", [], []⟩] 1).1,
            outcomeMatches (fun _ : List (RecordT Int) => Except.ok ()) r)
        ∧ (∀ b ∈ listChunks 1 [(⟨"a-chunk-0", [], []⟩ : RecordT Int), ⟨"a-chunk-1", [], []⟩],
            b.length ≤ 1)
        ∧ (listChunks 1 [(⟨"a-chunk-0", [], []⟩ : RecordT Int), ⟨"a-chunk-1", [], []⟩]).flatten
            = [⟨"a-chunk-0", [], []⟩, ⟨"a-chunk-1", [], []⟩]
        ∧ (upsert_to_pinecone (fun _ : List (RecordT Int) => Except.ok ())
            [⟨"a-chunk-0", [], []⟩, ⟨"a-chunk-1", [], []⟩] 1).2 = ()) :=
  ⟨by omega,
   upsert_batches_not_surfaced (fun _ : List (RecordT Int) => Except.ok ())
     [⟨"a-chunk-0", [], []⟩, ⟨"a-chunk-1", [], []⟩] 1 (by omega)⟩

/-- C5: the surfacing clause of the claim is refuted by the code.  Two runs
over the same two records — one where every batch write fails, one where
every batch write succeeds — return the very same value to the caller
(`None`; the function has no return statement), even though their behaviour
differs (the printed batch trace differs).  So no per-batch result list and
no count of records written reaches the caller. -/
theorem upsert_result_not_surfaced_counterexample :
    (upsert_to_pinecone (fun _ : List (RecordT Int) => Except.error "service down")
        [⟨"a-chunk-0", [], []⟩, ⟨"a-chunk-1", [], []⟩] 1).2
      = (upsert_to_pinecone (fun _ : List (RecordT Int) => Except.ok ())
        [⟨"a-chunk-0", [], []⟩, ⟨"a-chunk-1", [], []⟩] 1).2
    ∧ (upsert_to_pinecone (fun _ : List (RecordT Int) => Except.error "service down")
        [⟨"a-chunk-0", [], []⟩, ⟨"a-chunk-1", [], []⟩] 1).1
      ≠ (upsert_to_pinecone (fun _ : List (RecordT Int) => Except.ok ())
        [⟨"a-chunk-0", [], []⟩, ⟨"a-chunk-1", [], []⟩] 1).1 :=
  ⟨rfl, by decide⟩

/-- C2: neither validation the claim requires exists in `api_server.py`'s
`/search` handler.  With an empty query AND `top_k = 0` the handler issues
the embedding network call and then the index network call (trace of two
calls) and answers 200 with a result list — no validation error is raised
before (or instead of) the network calls.  By contrast `api_vercel.py` does
reject the empty query with a 400 before any network call (but accepts no
`top_k` at all), so the claim fails for the `api_server` transport. -/
theorem api_server_no_validation :
    api_server_search_faq (fun ts _ _ => Except.ok (ts.map (fun _ => ([] : List Int))))
        (fun _ _ _ => Except.ok ⟨[]⟩) id ⟨"", 0⟩
      = ([NetCall.embed [""] "embed-english-v3.0" "search_query",
          NetCall.query [] 0 true], Except.ok [])
    ∧ api_vercel_search_faq (fun ts _ _ => Except.ok (ts.map (fun _ => ([] : List Int))))
        (fun _ _ _ => Except.ok ⟨[]⟩) id ⟨""⟩
      = ([], Except.error (400, "Missing 'query' parameter")) := by
  exact ⟨rfl, rfl⟩

/-- C9: `search_helper.search_faq` is total over downstream failures: it
always returns a plain list of dicts; when the embedding call or the index
call fails with exception text `e` the result is exactly
`[{"error": e}]`; on success every returned dict carries the keys
`score`/`source`/`content_preview` and no `"error"` key, so the two shapes
are distinguished exactly by the presence of the `"error"` key. -/
theorem search_helper_total_error_shape {F : Type} (co : CoEmbed F)
    (idxq : IndexQuery F) (query : String) (top_k : Int) :
    (∀ e, co [query] "embed-english-v3.0" "search_query" = .error e →
      (search_helper_search_faq co idxq query top_k).2 = [[("error", PyVal.s e)]])
    ∧ (∀ qe tl e, co [query] "embed-english-v3.0" "search_query" = .ok (qe :: tl) →
        idxq qe top_k true = .error e →
        (search_helper_search_faq co idxq query top_k).2 = [[("error", PyVal.s e)]])
    ∧ (∀ qe tl results, co [query] "embed-english-v3.0" "search_query" = .ok (qe :: tl) →
        idxq qe top_k true = .ok results →
        (search_helper_search_faq co idxq query top_k).2
          = results.matches'.map (fun m =>
              [("score", PyVal.f m.score),
               ("source", dictGet m.metadata "source" (PyVal.s "Unknown")),
               ("content_preview",
                PyVal.s (pyTake (pyStr (dictGet m.metadata "content_preview" (PyVal.s ""))) 300))]))
    ∧ (∀ d ∈ (search_helper_search_faq co idxq query top_k).2,
        (d.lookup "error").isSome ∨
          d.map Prod.fst = ["score", "source", "content_preview"]) := by
  refine ⟨?_, ?_, ?_, ?_⟩
  · intro e he
    simp [search_helper_search_faq, he]
  · intro qe tl e hco hq
    simp [search_helper_search_faq, hco, hq]
  · intro qe tl results hco hq
    simp [search_helper_search_faq, hco, hq]
  · intro d hd
    unfold search_helper_search_faq at hd
    cases hco : co [query] "embed-english-v3.0" "search_query" with
    | error e =>
      rw [hco] at hd
      simp at hd
      subst hd
      left
      rfl
    | ok embs =>
      rw [hco] at hd
      cases embs with
      | nil =>
        simp at hd
        subst hd
        left
        rfl
      | cons qe tl =>
        dsimp only at hd
        cases hq : idxq qe top_k true with
        | error e =>
          rw [hq] at hd
          simp at hd
          subst hd
          left
          rfl
        | ok results =>
          rw [hq] at hd
          simp at hd
          obtain ⟨m, _, hm⟩ := hd
          right
          rw [← hm]
          rfl

/-- The embedding intent a network call carries (vacuous for index
queries). -/
def embedIntentIs {F : Type} (it : String) : NetCall F → Prop
  | .embed _ _ it2 => it2 = it
  | .query _ _ _ => True

/-- An embedding service that always answers with at least one vector (the
service contract: one vector per input text). -/
def alwaysOk {F : Type} (co : CoEmbed F) : Prop :=
  ∀ t m it, ∃ v rest, co [t] m it = Except.ok (v :: rest)

theorem processChunks_intent {F : Type} (co : CoEmbed F) (filename : String) (total : Nat) :
    ∀ (chunks : List String) (idx : Nat),
      ∀ c ∈ (processChunks co filename total chunks idx).1,
        embedIntentIs "search_document" c := by
  intro chunks
  induction chunks with
  | nil =>
    intro idx c hc
    simp [processChunks] at hc
  | cons chunk rest ih =>
    intro idx c hc
    rw [processChunks] at hc
    cases hres : (embed_text co chunk).2 with
    | error e =>
      rw [hres] at hc
      dsimp only at hc
      rw [List.mem_append] at hc
      rcases hc with hc | hc
      · have : c ∈ [NetCall.embed [chunk] "embed-english-v3.0" "search_document"] := hc
        rw [List.mem_singleton] at this
        subst this
        rfl
      · exact ih (idx + 1) c hc
    | ok emb =>
      rw [hres] at hc
      dsimp only at hc
      rw [List.mem_append] at hc
      rcases hc with hc | hc
      · have : c ∈ [NetCall.embed [chunk] "embed-english-v3.0" "search_document"] := hc
        rw [List.mem_singleton] at this
        subst this
        rfl
      · exact ih (idx + 1) c hc

theorem processChunks_records {F : Type} (co : CoEmbed F) (filename : String) (total : Nat) :
    ∀ (chunks : List String) (idx : Nat),
      (processChunks co filename total chunks idx).2.length ≤ chunks.length
      ∧ (∀ r ∈ (processChunks co filename total chunks idx).2,
          r.metadata.lookup "total_chunks" = some (PyVal.i total)) := by
  intro chunks
  induction chunks with
  | nil =>
    intro idx
    constructor
    · simp [processChunks]
    · intro r hr
      simp [processChunks] at hr
  | cons chunk rest ih =>
    intro idx
    rw [processChunks]
    cases hres : (embed_text co chunk).2 with
    | error e =>
      dsimp only
      constructor
      · have := (ih (idx + 1)).1
        simp only [List.length_cons]
        omega
      · exact fun r hr => (ih (idx + 1)).2 r hr
    | ok emb =>
      dsimp only
      constructor
      · have := (ih (idx + 1)).1
        simp only [List.length_cons]
        omega
      · intro r hr
        rw [List.mem_cons] at hr
        rcases hr with hr | hr
        · subst hr
          rfl
        · exact (ih (idx + 1)).2 r hr

theorem processChunks_ids {F : Type} (co : CoEmbed F) (hco : alwaysOk co)
    (filename : String) (total : Nat) :
    ∀ (chunks : List String) (idx : Nat),
      (processChunks co filename total chunks idx).2.map (fun r => r.id)
        = (List.range chunks.length).map
            (fun k => splitextStem filename ++ "-chunk-" ++ toString (idx + k)) := by
  intro chunks
  induction chunks with
  | nil =>
    intro idx
    simp [processChunks]
  | cons chunk rest ih =>
    intro idx
    obtain ⟨v, vrest, hv⟩ := hco chunk "embed-english-v3.0" "search_document"
    have hres : (embed_text co chunk).2 = Except.ok v := by
      rw [embed_text]
      dsimp only
      rw [hv]
    rw [processChunks, hres]
    dsimp only
    rw [List.map_cons, ih (idx + 1)]
    simp only [List.length_cons]
    rw [List.range_succ_eq_map, List.map_cons, List.map_map]
    congr 1
    · apply List.map_congr_left
      intro k _
      simp only [Function.comp_apply, Nat.succ_eq_add_one]
      congr 2
      omega

theorem processFile_intent {F : Type} (openDoc : String → Except String (List String))
    (encode : String → List Nat) (decode : List Nat → String) (co : CoEmbed F)
    (W : Nat) (path : String) (r : List String × List (NetCall F) × List (RecordT F))
    (hr : processFile openDoc encode decode co W path = some r) :
    ∀ c ∈ r.2.1, embedIntentIs "search_document" c := by
  intro c hc
  rw [processFile] at hr
  by_cases hempty : (extract_pdf_text openDoc path).2 = ""
  · rw [if_pos hempty] at hr
    have := Option.some.inj hr
    subst this
    simp at hc
  · rw [if_neg hempty] at hr
    cases hch : chunk_text_by_tokens encode decode (extract_pdf_text openDoc path).2 W 200 with
    | none =>
      rw [hch] at hr
      exact absurd hr (by simp)
    | some chunks =>
      rw [hch] at hr
      dsimp only at hr
      have := Option.some.inj hr
      subst this
      exact processChunks_intent co (basename path) chunks.length chunks 0 c hc

theorem processFiles_intent {F : Type} (openDoc : String → Except String (List String))
    (encode : String → List Nat) (decode : List Nat → String) (co : CoEmbed F) (W : Nat) :
    ∀ (files : List String) (r : List String × List (NetCall F) × List (RecordT F)),
      processFiles openDoc encode decode co W files = some r →
      ∀ c ∈ r.2.1, embedIntentIs "search_document" c := by
  intro files
  induction files with
  | nil =>
    intro r hr c hc
    have := Option.some.inj hr
    subst this
    simp at hc
  | cons f rest ih =>
    intro r hr c hc
    rw [processFiles] at hr
    cases hf : processFile openDoc encode decode co W f with
    | none =>
      rw [hf] at hr
      exact absurd hr (by simp)
    | some a =>
      cases hrest : processFiles openDoc encode decode co W rest with
      | none =>
        rw [hf, hrest] at hr
        exact absurd hr (by simp)
      | some b =>
        rw [hf, hrest] at hr
        dsimp only at hr
        have := Option.some.inj hr
        subst this
        dsimp only at hc
        rw [List.mem_append] at hc
        rcases hc with hc | hc
        · exact processFile_intent openDoc encode decode co W f a hf c hc
        · exact ih b hrest c hc

/-- C7: ingestion-side embedding calls carry intent `search_document` and
retrieval-side embedding calls carry intent `search_query`, at every
embedded call site: `embed_text` and `embed_query` themselves, the whole
ingestion pipeline (`process_pdfs_to_vectors`), and the retrieval transports
(`search_helper.py`, `api_server.py`, `api_vercel.py`). -/
theorem embedding_intents :
    (∀ (F : Type) (co : CoEmbed F) (text : String),
      (embed_text co text).1 = [NetCall.embed [text] "embed-english-v3.0" "search_document"])
    ∧ (∀ (F : Type) (co : CoEmbed F) (text : String),
      (embed_query co text).1 = [NetCall.embed [text] "embed-english-v3.0" "search_query"])
    ∧ (∀ (F : Type) (glob : String → List String)
        (openDoc : String → Except String (List String)) (encode : String → List Nat)
        (decode : List Nat → String) (co : CoEmbed F) (pattern : String) (W : Nat)
        (r : List String × List (NetCall F) × List (RecordT F)),
        process_pdfs_to_vectors glob openDoc encode decode co pattern W = some r →
        ∀ c ∈ r.2.1, embedIntentIs "search_document" c)
    ∧ (∀ (F : Type) (co : CoEmbed F) (idxq : IndexQuery F) (q : String) (k : Int),
        ∀ c ∈ (search_helper_search_faq co idxq q k).1, embedIntentIs "search_query" c)
    ∧ (∀ (F : Type) (co : CoEmbed F) (idxq : IndexQuery F) (round4 : F → F)
        (sq : SearchQuery),
        ∀ c ∈ (api_server_search_faq co idxq round4 sq).1, embedIntentIs "search_query" c)
    ∧ (∀ (F : Type) (co : CoEmbed F) (idxq : IndexQuery F) (toFl : F → F)
        (q : VSearchQuery),
        ∀ c ∈ (api_vercel_search_faq co idxq toFl q).1, embedIntentIs "search_query" c) := by
  refine ⟨fun F co text => rfl, fun F co text => rfl, ?_, ?_, ?_, ?_⟩
  · intro F glob openDoc encode decode co pattern W r hr c hc
    rw [process_pdfs_to_vectors] at hr
    by_cases hfiles : (glob pattern).isEmpty
    · rw [if_pos hfiles] at hr
      have := Option.some.inj hr
      subst this
      simp at hc
    · rw [if_neg hfiles] at hr
      cases hfs : processFiles openDoc encode decode co W (glob pattern) with
      | none =>
        rw [hfs] at hr
        exact absurd hr (by simp)
      | some b =>
        rw [hfs] at hr
        dsimp only [Option.map] at hr
        have := Option.some.inj hr
        subst this
        exact processFiles_intent openDoc encode decode co W (glob pattern) b hfs c hc
  · intro F co idxq q k c hc
    unfold search_helper_search_faq at hc
    cases hco : co [q] "embed-english-v3.0" "search_query" with
    | error e =>
      rw [hco] at hc
      simp at hc
      subst hc
      rfl
    | ok embs =>
      rw [hco] at hc
      cases embs with
      | nil =>
        simp at hc
        subst hc
        rfl
      | cons qe tl =>
        dsimp only at hc
        cases hq : idxq qe k true with
        | error e =>
          rw [hq] at hc
          simp at hc
          rcases hc with hc | hc <;> subst hc <;> trivial
        | ok results =>
          rw [hq] at hc
          simp at hc
          rcases hc with hc | hc <;> subst hc <;> trivial
  · intro F co idxq round4 sq c hc
    unfold api_server_search_faq at hc
    cases hco : co [sq.query] "embed-english-v3.0" "search_query" with
    | error e =>
      rw [hco] at hc
      simp at hc
      subst hc
      rfl
    | ok embs =>
      rw [hco] at hc
      cases embs with
      | nil =>
        simp at hc
        subst hc
        rfl
      | cons qe tl =>
        dsimp only at hc
        cases hq : idxq qe sq.top_k true with
        | error e =>
          rw [hq] at hc
          simp at hc
          rcases hc with hc | hc <;> subst hc <;> trivial
        | ok results =>
          rw [hq] at hc
          simp at hc
          rcases hc with hc | hc <;> subst hc <;> trivial
  · intro F co idxq toFl q c hc
    unfold api_vercel_search_faq at hc
    by_cases hq0 : q.query = ""
    · rw [if_pos hq0] at hc
      simp at hc
    · rw [if_neg hq0] at hc
      dsimp only at hc
      cases hco : co [q.query] "embed-english-v3.0" "search_query" with
      | error e =>
        rw [hco] at hc
        simp at hc
        subst hc
        rfl
      | ok embs =>
        rw [hco] at hc
        cases embs with
        | nil =>
          simp at hc
          subst hc
          rfl
        | cons qe tl =>
          dsimp only at hc
          cases hqq : idxq qe 3 true with
          | error e =>
            rw [hqq] at hc
            simp at hc
            rcases hc with hc | hc <;> subst hc <;> trivial
          | ok results =>
            rw [hqq] at hc
            simp at hc
            rcases hc with hc | hc <;> subst hc <;> trivial

theorem processFile_ids_indep {F : Type} (openDoc : String → Except String (List String))
    (encode : String → List Nat) (decode : List Nat → String) (co1 co2 : CoEmbed F)
    (h1 : alwaysOk co1) (h2 : alwaysOk co2) (W : Nat) (path : String) :
    (processFile openDoc encode decode co1 W path).map
        (fun r => r.2.2.map (fun rec => rec.id))
      = (processFile openDoc encode decode co2 W path).map
        (fun r => r.2.2.map (fun rec => rec.id)) := by
  rw [processFile, processFile]
  by_cases hempty : (extract_pdf_text openDoc path).2 = ""
  · rw [if_pos hempty, if_pos hempty]
  · rw [if_neg hempty, if_neg hempty]
    cases hch : chunk_text_by_tokens encode decode (extract_pdf_text openDoc path).2 W 200 with
    | none => rfl
    | some chunks =>
      dsimp only [Option.map]
      rw [processChunks_ids co1 h1 (basename path) chunks.length chunks 0,
        processChunks_ids co2 h2 (basename path) chunks.length chunks 0]

theorem processFiles_ids_indep {F : Type} (openDoc : String → Except String (List String))
    (encode : String → List Nat) (decode : List Nat → String) (co1 co2 : CoEmbed F)
    (h1 : alwaysOk co1) (h2 : alwaysOk co2) (W : Nat) :
    ∀ files : List String,
      (processFiles openDoc encode decode co1 W files).map
          (fun r => r.2.2.map (fun rec => rec.id))
        = (processFiles openDoc encode decode co2 W files).map
          (fun r => r.2.2.map (fun rec => rec.id)) := by
  intro files
  induction files with
  | nil => rfl
  | cons f rest ih =>
    rw [processFiles, processFiles]
    have hf := processFile_ids_indep openDoc encode decode co1 co2 h1 h2 W f
    cases h1f : processFile openDoc encode decode co1 W f with
    | none =>
      rw [h1f] at hf
      cases h2f : processFile openDoc encode decode co2 W f with
      | none => rfl
      | some a2 =>
        rw [h2f] at hf
        exact absurd hf.symm (by simp)
    | some a1 =>
      rw [h1f] at hf
      cases h2f : processFile openDoc encode decode co2 W f with
      | none =>
        rw [h2f] at hf
        exact absurd hf (by simp)
      | some a2 =>
        rw [h2f] at hf
        have hideq : a1.2.2.map (fun rec => rec.id) = a2.2.2.map (fun rec => rec.id) :=
          Option.some.inj hf
        cases h1r : processFiles openDoc encode decode co1 W rest with
        | none =>
          rw [h1r] at ih
          cases h2r : processFiles openDoc encode decode co2 W rest with
          | none => rfl
          | some b2 =>
            rw [h2r] at ih
            exact absurd ih.symm (by simp)
        | some b1 =>
          rw [h1r] at ih
          cases h2r : processFiles openDoc encode decode co2 W rest with
          | none =>
            rw [h2r] at ih
            exact absurd ih (by simp)
          | some b2 =>
            rw [h2r] at ih
            have hbeq : b1.2.2.map (fun rec => rec.id) = b2.2.2.map (fun rec => rec.id) :=
              Option.some.inj ih
            dsimp only [Option.map]
            rw [List.map_append, List.map_append, hideq, hbeq]

/-- C6: the id of every record built by the ingestion pipeline is the
deterministic string `splitext(filename)[0] ++ "-chunk-" ++ str(idx)` of the
document's filename stem and the zero-based chunk index, and of nothing
else.  Consequently two ingestion runs over the same documents with the same
chunking parameters — even with different embedding services, as long as
both answer every request — produce exactly the same id sequence, so
re-ingesting upserts the same record ids instead of accumulating new ones.
The second conjunct gives the closed form of the ids of one document. -/
theorem record_ids_deterministic {F : Type} (glob : String → List String)
    (openDoc : String → Except String (List String)) (encode : String → List Nat)
    (decode : List Nat → String) (co1 co2 : CoEmbed F)
    (h1 : alwaysOk co1) (h2 : alwaysOk co2) (pattern : String) (W : Nat) :
    ((process_pdfs_to_vectors glob openDoc encode decode co1 pattern W).map
        (fun r => r.2.2.map (fun rec => rec.id)))
      = ((process_pdfs_to_vectors glob openDoc encode decode co2 pattern W).map
        (fun r => r.2.2.map (fun rec => rec.id)))
    ∧ (∀ (path : String) (l : List String) (tr : List (NetCall F))
        (recs : List (RecordT F)) (chunks : List String),
        processFile openDoc encode decode co1 W path = some (l, tr, recs) →
        chunk_text_by_tokens encode decode (extract_pdf_text openDoc path).2 W 200
          = some chunks →
        (extract_pdf_text openDoc path).2 ≠ "" →
        recs.map (fun rec => rec.id)
          = (List.range chunks.length).map
              (fun k => splitextStem (basename path) ++ "-chunk-" ++ toString k)) := by
  constructor
  · rw [process_pdfs_to_vectors, process_pdfs_to_vectors]
    by_cases hfiles : (glob pattern).isEmpty
    · rw [if_pos hfiles, if_pos hfiles]
    · rw [if_neg hfiles, if_neg hfiles]
      have hfs := processFiles_ids_indep openDoc encode decode co1 co2 h1 h2 W (glob pattern)
      cases h1r : processFiles openDoc encode decode co1 W (glob pattern) with
      | none =>
        rw [h1r] at hfs
        cases h2r : processFiles openDoc encode decode co2 W (glob pattern) with
        | none => rfl
        | some b2 =>
          rw [h2r] at hfs
          exact absurd hfs.symm (by simp)
      | some b1 =>
        rw [h1r] at hfs
        cases h2r : processFiles openDoc encode decode co2 W (glob pattern) with
        | none =>
          rw [h2r] at hfs
          exact absurd hfs (by simp)
        | some b2 =>
          rw [h2r] at hfs
          have hbeq : b1.2.2.map (fun rec => rec.id) = b2.2.2.map (fun rec => rec.id) :=
            Option.some.inj hfs
          dsimp only [Option.map]
          rw [hbeq]
  · intro path l tr recs chunks hfile hch hne
    rw [processFile] at hfile
    rw [if_neg hne, hch] at hfile
    dsimp only at hfile
    have heq := Option.some.inj hfile
    have hrecs : recs = (processChunks co1 (basename path) chunks.length chunks 0).2 :=
      (congrArg (fun t => t.2.2) heq).symm
    rw [hrecs, processChunks_ids co1 h1 (basename path) chunks.length chunks 0]
    apply List.map_congr_left
    intro k _
    congr 2
    omega

theorem record_ids_deterministic_witness :
    ((process_pdfs_to_vectors (fun _ => ["a.pdf"]) (fun _ => Except.ok ["hello"])
        (fun s => if s = "" then [] else [1]) (fun _ => "x")
        (fun ts _ _ => Except.ok (ts.map (fun _ => [(0 : Int)]))) "policies/*.pdf" 6000).map
        (fun r => r.2.2.map (fun rec => rec.id)))
      = ((process_pdfs_to_vectors (fun _ => ["a.pdf"]) (fun _ => Except.ok ["hello"])
        (fun s => if s = "" then [] else [1]) (fun _ => "x")
        (fun ts _ _ => Except.ok (ts.map (fun _ => [(7 : Int)]))) "policies/*.pdf" 6000).map
        (fun r => r.2.2.map (fun rec => rec.id)))
    ∧ (∀ (path : String) (l : List String) (tr : List (NetCall Int))
        (recs : List (RecordT Int)) (chunks : List String),
        processFile (fun _ => Except.ok ["hello"]) (fun s => if s = "" then [] else [1])
            (fun _ => "x") (fun ts _ _ => Except.ok (ts.map (fun _ => [(0 : Int)]))) 6000 path
          = some (l, tr, recs) →
        chunk_text_by_tokens (fun s => if s = "" then [] else [1]) (fun _ => "x")
            (extract_pdf_text (fun _ => Except.ok ["hello"]) path).2 6000 200 = some chunks →
        (extract_pdf_text (fun _ => Except.ok ["hello"]) path).2 ≠ "" →
        recs.map (fun rec => rec.id)
          = (List.range chunks.length).map
              (fun k => splitextStem (basename path) ++ "-chunk-" ++ toString k)) :=
  record_ids_deterministic (fun _ => ["a.pdf"]) (fun _ => Except.ok ["hello"])
    (fun s => if s = "" then [] else [1]) (fun _ => "x")
    (fun ts _ _ => Except.ok (ts.map (fun _ => [(0 : Int)])))
    (fun ts _ _ => Except.ok (ts.map (fun _ => [(7 : Int)])))
    (fun t m it => ⟨[0], [], rfl⟩) (fun t m it => ⟨[7], [], rfl⟩) "policies/*.pdf" 6000

theorem processFiles_append {F : Type} (openDoc : String → Except String (List String))
    (encode : String → List Nat) (decode : List Nat → String) (co : CoEmbed F) (W : Nat) :
    ∀ (A B : List String),
      processFiles openDoc encode decode co W (A ++ B)
        = match processFiles openDoc encode decode co W A,
                processFiles openDoc encode decode co W B with
          | some a, some b => some (a.1 ++ b.1, a.2.1 ++ b.2.1, a.2.2 ++ b.2.2)
          | _, _ => none := by
  intro A B
  induction A with
  | nil =>
    show processFiles openDoc encode decode co W B = _
    cases hB : processFiles openDoc encode decode co W B with
    | none => rfl
    | some b => rfl
  | cons f rest ih =>
    rw [List.cons_append, processFiles, ih, processFiles]
    cases hf : processFile openDoc encode decode co W f with
    | none =>
      cases processFiles openDoc encode decode co W rest <;>
        cases processFiles openDoc encode decode co W B <;> rfl
    | some a =>
      cases processFiles openDoc encode decode co W rest with
      | none => cases processFiles openDoc encode decode co W B <;> rfl
      | some r =>
        cases processFiles openDoc encode decode co W B with
        | none => rfl
        | some b =>
          dsimp only
          rw [List.append_assoc, List.append_assoc, List.append_assoc]

/-- C8: a document whose source cannot be opened is handled inside
`extract_pdf_text` (the failure is printed with the path and `""` returned),
the pipeline records the skip and produces no records and no network calls
for it, and the remaining documents of the batch are processed exactly as if
the bad document were absent — the run still completes (returns `some`; no
exception escapes the batch call). -/
theorem extraction_failure_isolated {F : Type}
    (openDoc : String → Except String (List String)) (encode : String → List Nat)
    (decode : List Nat → String) (co : CoEmbed F) (W : Nat) (bad e : String)
    (hbad : openDoc bad = Except.error e) (A B : List String) :
    processFile openDoc encode decode co W bad
      = some (["Processing: " ++ basename bad,
               "Error reading " ++ bad ++ ": " ++ e,
               "Skipping " ++ basename bad ++ " - no text extracted"], [], [])
    ∧ (∀ a b, processFiles openDoc encode decode co W A = some a →
        processFiles openDoc encode decode co W B = some b →
        processFiles openDoc encode decode co W (A ++ bad :: B)
          = some (a.1 ++ (["Processing: " ++ basename bad,
                           "Error reading " ++ bad ++ ": " ++ e,
                           "Skipping " ++ basename bad ++ " - no text extracted"] ++ b.1),
                  a.2.1 ++ b.2.1, a.2.2 ++ b.2.2)) := by
  have hex : extract_pdf_text openDoc bad
      = (["Error reading " ++ bad ++ ": " ++ e], "") := by
    rw [extract_pdf_text, hbad]
  have hone : processFile openDoc encode decode co W bad
      = some (["Processing: " ++ basename bad,
               "Error reading " ++ bad ++ ": " ++ e,
               "Skipping " ++ basename bad ++ " - no text extracted"], [], []) := by
    rw [processFile, hex]
    rfl
  refine ⟨hone, ?_⟩
  intro a b ha hb
  have hmid : processFiles openDoc encode decode co W (bad :: B)
      = some (["Processing: " ++ basename bad,
               "Error reading " ++ bad ++ ": " ++ e,
               "Skipping " ++ basename bad ++ " - no text extracted"] ++ b.1,
              b.2.1, b.2.2) := by
    rw [processFiles, hone, hb]
    rfl
  rw [processFiles_append openDoc encode decode co W A (bad :: B), ha, hmid]

/-- C10: every record the pipeline creates for a document stores in its
`total_chunks` metadata field the full number of chunks the chunker produced
for that document (computed before the embedding loop), and the number of
records actually created never exceeds it — records of chunks whose
embedding failed are simply missing, so the count can be strictly below the
stored `total_chunks`. -/
theorem total_chunks_metadata {F : Type}
    (openDoc : String → Except String (List String)) (encode : String → List Nat)
    (decode : List Nat → String) (co : CoEmbed F) (W : Nat) (path : String)
    (l : List String) (tr : List (NetCall F)) (recs : List (RecordT F))
    (chunks : List String)
    (hfile : processFile openDoc encode decode co W path = some (l, tr, recs))
    (hch : chunk_text_by_tokens encode decode (extract_pdf_text openDoc path).2 W 200
      = some chunks)
    (hne : (extract_pdf_text openDoc path).2 ≠ "") :
    (∀ r ∈ recs, r.metadata.lookup "total_chunks" = some (PyVal.i chunks.length))
    ∧ recs.length ≤ chunks.length := by
  rw [processFile, if_neg hne, hch] at hfile
  dsimp only at hfile
  have heq := Option.some.inj hfile
  have hrecs : recs = (processChunks co (basename path) chunks.length chunks 0).2 :=
    (congrArg (fun t => t.2.2) heq).symm
  rw [hrecs]
  exact ⟨(processChunks_records co (basename path) chunks.length chunks 0).2,
    (processChunks_records co (basename path) chunks.length chunks 0).1⟩

theorem extraction_failure_isolated_witness :
    (processFile (fun p => if p = "bad.pdf" then Except.error "corrupt" else Except.ok ["hello"])
        (fun s => if s = "" then [] else [1]) (fun _ => "x")
        (fun ts _ _ => Except.ok (ts.map (fun _ => [(0 : Int)]))) 6000 "bad.pdf"
      = some (["Processing: " ++ basename "bad.pdf",
               "Error reading " ++ "bad.pdf" ++ ": " ++ "corrupt",
               "Skipping " ++ basename "bad.pdf" ++ " - no text extracted"], [], [])
      ∧ (∀ a b,
          processFiles (fun p => if p = "bad.pdf" then Except.error "corrupt"
              else Except.ok ["hello"]) (fun s => if s = "" then [] else [1]) (fun _ => "x")
            (fun ts _ _ => Except.ok (ts.map (fun _ => [(0 : Int)]))) 6000 ["a.pdf"] = some a →
          processFiles (fun p => if p = "bad.pdf" then Except.error "corrupt"
              else Except.ok ["hello"]) (fun s => if s = "" then [] else [1]) (fun _ => "x")
            (fun ts _ _ => Except.ok (ts.map (fun _ => [(0 : Int)]))) 6000 ["c.pdf"] = some b →
          processFiles (fun p => if p = "bad.pdf" then Except.error "corrupt"
              else Except.ok ["hello"]) (fun s => if s = "" then [] else [1]) (fun _ => "x")
            (fun ts _ _ => Except.ok (ts.map (fun _ => [(0 : Int)]))) 6000
            (["a.pdf"] ++ "bad.pdf" :: ["c.pdf"])
            = some (a.1 ++ (["Processing: " ++ basename "bad.pdf",
                             "Error reading " ++ "bad.pdf" ++ ": " ++ "corrupt",
                             "Skipping " ++ basename "bad.pdf" ++ " - no text extracted"] ++ b.1),
                    a.2.1 ++ b.2.1, a.2.2 ++ b.2.2)))
    ∧ (processFiles (fun p => if p = "bad.pdf" then Except.error "corrupt"
          else Except.ok ["hello"]) (fun s => if s = "" then [] else [1]) (fun _ => "x")
        (fun ts _ _ => Except.ok (ts.map (fun _ => [(0 : Int)]))) 6000
        ["a.pdf", "bad.pdf", "c.pdf"]).map (fun r => r.2.2.map (fun rec => rec.id))
      = some ["a-chunk-0", "c-chunk-0"]
    ∧ (processFiles (fun p => if p = "bad.pdf" then Except.error "corrupt"
          else Except.ok ["hello"]) (fun s => if s = "" then [] else [1]) (fun _ => "x")
        (fun ts _ _ => Except.ok (ts.map (fun _ => [(0 : Int)]))) 6000
        ["a.pdf", "bad.pdf", "c.pdf"]).map
          (fun r => r.1.contains "Error reading bad.pdf: corrupt")
      = some true :=
  ⟨extraction_failure_isolated
      (fun p => if p = "bad.pdf" then Except.error "corrupt" else Except.ok ["hello"])
      (fun s => if s = "" then [] else [1]) (fun _ => "x")
      (fun ts _ _ => Except.ok (ts.map (fun _ => [(0 : Int)]))) 6000 "bad.pdf" "corrupt"
      rfl ["a.pdf"] ["c.pdf"],
   by decide, by decide⟩

theorem total_chunks_metadata_witness :
    ((∀ r ∈ [(⟨"d-chunk-1", [(5 : Int)],
          [("source", PyVal.s "d.pdf"), ("chunk_index", PyVal.i 1),
           ("total_chunks", PyVal.i 2), ("content_preview", PyVal.s "b"),
           ("type", PyVal.s "policy"), ("char_count", PyVal.i 1)]⟩ : RecordT Int)],
        r.metadata.lookup "total_chunks" = some (PyVal.i (["ab", "b"] : List String).length))
      ∧ ([(⟨"d-chunk-1", [(5 : Int)],
          [("source", PyVal.s "d.pdf"), ("chunk_index", PyVal.i 1),
           ("total_chunks", PyVal.i 2), ("content_preview", PyVal.s "b"),
           ("type", PyVal.s "policy"), ("char_count", PyVal.i 1)]⟩ : RecordT Int)]).length
          ≤ (["ab", "b"] : List String).length)
    ∧ ([(⟨"d-chunk-1", [(5 : Int)],
          [("source", PyVal.s "d.pdf"), ("chunk_index", PyVal.i 1),
           ("total_chunks", PyVal.i 2), ("content_preview", PyVal.s "b"),
           ("type", PyVal.s "policy"), ("char_count", PyVal.i 1)]⟩ : RecordT Int)]).length
        < (["ab", "b"] : List String).length :=
  ⟨total_chunks_metadata (fun _ => Except.ok ["ab"])
      (fun s => if s = "ab" then [0, 1] else [0])
      (fun ts => if ts.length = 2 then "ab" else "b")
      (fun ts _ _ => if ts = ["ab"] then Except.error "boom"
        else Except.ok (ts.map (fun _ => [(5 : Int)])))
      201 "d.pdf"
      ["Processing: d.pdf", "  Created 2 chunks"]
      [NetCall.embed ["ab"] "embed-english-v3.0" "search_document",
       NetCall.embed ["b"] "embed-english-v3.0" "search_document"]
      [⟨"d-chunk-1", [(5 : Int)],
         [("source", PyVal.s "d.pdf"), ("chunk_index", PyVal.i 1),
          ("total_chunks", PyVal.i 2), ("content_preview", PyVal.s "b"),
          ("type", PyVal.s "policy"), ("char_count", PyVal.i 1)]⟩]
      ["ab", "b"] rfl rfl (by decide),
   by decide⟩

end FaqSearch
